import Mathlib

/-!
Verification development for the unsubscribe-endpoint discovery and
multi-channel resolution engine of `gmail-ai-unsub`.

The Python sources are shallowly embedded over `List Char`:

* `src/gmail_ai_unsub/unsubscribe/extractor.py` — header parsing, body
  scanning, URL validation, the liveness probe;
* the per-message orchestration loop of the `unsubscribe` command in
  `src/gmail_ai_unsub/cli.py` (lines 509-787).

External collaborators (the HTTP client, the mail-send call, the
UI-automation browser agent, and the DOM library BeautifulSoup) are
modelled as explicit capability parameters, following the design note
that any DOM-like library satisfying "parse markup into traversable
elements with href/text accessors" is acceptable.  Code that can raise a
Python exception is embedded in `Except String`; the only raising
operation reachable from the embedded code is `urllib.parse.urlparse`,
whose `ValueError ("Invalid IPv6 URL")` on a netloc with mismatched
square brackets is reproduced faithfully.  Characters are treated at the
ASCII level (all string constants in the embedded code are ASCII).
-/

namespace GmailUnsub

/-! ### Basic string helpers (Python `str` operations, ASCII level) -/

/-- Python whitespace for `str.strip` / `str.rstrip` / regex `\s` (ASCII). -/
def isPyWs (c : Char) : Bool :=
  c == ' ' || c == '\t' || c == '\n' || c == '\r' || c == '\x0b' || c == '\x0c'

/-- Python `s.rstrip()` — drop trailing whitespace. -/
def rstripPy (l : List Char) : List Char :=
  (l.reverse.dropWhile isPyWs).reverse

/-- Python `s.strip()` — drop leading and trailing whitespace. -/
def pyStrip (l : List Char) : List Char :=
  rstripPy (l.dropWhile isPyWs)

/-- Python `s.replace(" ", "")` — remove every space character. -/
def despace (l : List Char) : List Char :=
  l.filter (fun c => c != ' ')

/-- Python `s.rstrip(".,;:!?)")` — drop trailing characters from that set. -/
def isTrailPunct (c : Char) : Bool :=
  c == '.' || c == ',' || c == ';' || c == ':' || c == '!' || c == '?' || c == ')'

def rstripPunct (l : List Char) : List Char :=
  (l.reverse.dropWhile isTrailPunct).reverse

/-- Python `s.lower()` (ASCII). -/
def lowerL (l : List Char) : List Char :=
  l.map Char.toLower

/-- Python `needle in hay` on strings: substring test. -/
def containsSeq (needle : List Char) : List Char → Bool
  | [] => needle.isPrefixOf []
  | c :: rest => needle.isPrefixOf (c :: rest) || containsSeq needle rest

/-- Split at the first occurrence of `d`: text before it, and the text after
it when present (Python `s.split(d, 1)` / `s.find(d)`). -/
def splitFirst (d : Char) : List Char → List Char × Option (List Char)
  | [] => ([], none)
  | c :: rest =>
    if c == d then ([], some rest)
    else
      let r := splitFirst d rest
      (c :: r.1, r.2)

/-! ### `urllib.parse.urlparse` (split into scheme/netloc/path/query/fragment)

Embedded from CPython `urllib/parse.py` (`urlsplit`): leading
control-or-space characters are stripped, tab/CR/LF removed anywhere, an
RFC-scheme prefix is split off, a `//`-introduced netloc is cut at the
first of `/?#`, and a netloc containing `[` without `]` (or vice versa)
raises `ValueError("Invalid IPv6 URL")`.  The `params` component is not
used by the program and is omitted. -/

structure SplitResult where
  scheme : List Char
  netloc : List Char
  path : List Char
  query : List Char
  fragment : List Char
deriving DecidableEq, Repr

def isSchemeChar (c : Char) : Bool :=
  c.isAlpha || c.isDigit || c == '+' || c == '-' || c == '.'

def urlparse (url0 : List Char) : Except String SplitResult :=
  let url1 := url0.dropWhile (fun c => c.toNat ≤ 0x20)
  let url2 := url1.filter (fun c => !(c == '\t' || c == '\r' || c == '\n'))
  let schemeSplit :=
    match splitFirst ':' url2 with
    | (before, some after) =>
      match before with
      | [] => ([], url2)
      | b :: bs =>
        if b.isAlpha && (b :: bs).all isSchemeChar then (lowerL (b :: bs), after)
        else ([], url2)
    | (_, none) => ([], url2)
  let scheme := schemeSplit.1
  let url3 := schemeSplit.2
  let netlocSplit :=
    if ("//".toList).isPrefixOf url3 then
      let rest := url3.drop 2
      let n := rest.takeWhile (fun c => !(c == '/' || c == '?' || c == '#'))
      (n, rest.drop n.length)
    else ([], url3)
  let netloc := netlocSplit.1
  let url4 := netlocSplit.2
  if (netloc.contains '[' && !(netloc.contains ']')) ||
     (netloc.contains ']' && !(netloc.contains '[')) then
    .error "Invalid IPv6 URL"
  else
    let fragSplit :=
      match splitFirst '#' url4 with
      | (b, some a) => (b, a)
      | (b, none) => (b, [])
    let querySplit :=
      match splitFirst '?' fragSplit.1 with
      | (b, some a) => (b, a)
      | (b, none) => (b, [])
    .ok ⟨scheme, netloc, querySplit.1, querySplit.2, fragSplit.2⟩

/-! ### `validate_url` and `test_url_accessibility` (extractor.py 35-86) -/

/-- Python `s.rstrip().endswith(str(c))`. -/
def endsWithRstrip (l : List Char) (c : Char) : Bool :=
  match (rstripPy l).getLast? with
  | some d => d == c
  | none => false

/-- `validate_url` from extractor.py: syntactic filter for truncated or
malformed URLs.  `urlparse` is called before any of the checks, so its
`ValueError` propagates. -/
def validate_url (url : List Char) : Except String Bool :=
  if url = [] then .ok false
  else
    match urlparse url with
    | .error e => .error e
    | .ok parsed =>
      if parsed.scheme = [] ∨ parsed.netloc = [] then .ok false
      else if endsWithRstrip url '=' || endsWithRstrip url '?' then .ok false
      else if parsed.query ≠ [] ∧ endsWithRstrip parsed.query '=' then .ok false
      else .ok true

/-- `test_url_accessibility` from extractor.py: the HEAD request is the
capability `http` (status code, or `.error` for any raised network
exception).  2xx/3xx count as accessible; a raised exception is treated
as accessible with no status code. -/
def test_url_accessibility (http : List Char → Except String Nat)
    (url : List Char) : Bool × Option Nat :=
  match http url with
  | .ok code => (decide (200 ≤ code ∧ code < 400), some code)
  | .error _ => (true, none)

/-! ### Regex scanners

`re.findall` for the handful of concrete patterns the program uses is
embedded as a position-by-position scan: at each position we attempt a
match; on success we emit the captured group and resume after the match,
otherwise we advance one character (Python's leftmost, non-overlapping
`findall` semantics).  Fuel bounds the scan by the input length; every
successful attempt consumes at least one character, so the fuel is never
exhausted early. -/

def scanWith (att : List Char → Option (List Char × List Char)) :
    Nat → List Char → List (List Char)
  | 0, _ => []
  | _, [] => []
  | fuel + 1, c :: rest =>
    match att (c :: rest) with
    | some (g, rem) => g :: scanWith att fuel rem
    | none => scanWith att fuel rest

/-- The keyword alternatives appearing in the body regex patterns. -/
inductive Kw
  | unsub
  | unsubscribe
  | optout
deriving DecidableEq

/-- Does the keyword pattern match at the head of `l`?  `optout` is the
pattern `opt.?out` (`.` matches anything but a newline). -/
def kwAt (k : Kw) (l : List Char) : Bool :=
  match k with
  | .unsub => ("unsub".toList).isPrefixOf l
  | .unsubscribe => ("unsubscribe".toList).isPrefixOf l
  | .optout =>
    ("optout".toList).isPrefixOf l ||
    (("opt".toList).isPrefixOf l &&
      (match l.drop 3 with
       | c :: rest => c != '\n' && ("out".toList).isPrefixOf rest
       | [] => false))

/-- Does the keyword pattern match anywhere in `l`?  (Apply to a lowered
list to get `re.IGNORECASE` behaviour.) -/
def containsKw (k : Kw) : List Char → Bool
  | [] => kwAt k []
  | c :: rest => kwAt k (c :: rest) || containsKw k rest

def isQuoteCh (c : Char) : Bool :=
  c == '"' || c == '\''

/-- One attempt of `href=["\']([^"\']*KW[^"\']*)["\']` (IGNORECASE) at the
head of `l`: after a case-insensitive `href=` and an opening quote, the
group is everything up to the next quote character, accepted when it
contains the keyword; the scan resumes after the closing quote. -/
def tryHrefAt (k : Kw) (l : List Char) : Option (List Char × List Char) :=
  if lowerL (l.take 5) = "href=".toList then
    match l.drop 5 with
    | q :: rest =>
      if isQuoteCh q then
        let content := rest.takeWhile (fun c => !isQuoteCh c)
        match rest.drop content.length with
        | q2 :: rest2 =>
          if isQuoteCh q2 && containsKw k (lowerL content) then some (content, rest2)
          else none
        | [] => none
      else none
    | [] => none
  else none

/-- Character class `[^\s<>"]` of the plain-text URL patterns. -/
def urlRunChar (c : Char) : Bool :=
  !(isPyWs c || c == '<' || c == '>' || c == '"')

/-- One attempt of `(https?://[^\s<>"]*KW[^\s<>"]*)` (IGNORECASE) at the
head of `l`: a case-insensitive `http://` or `https://` prefix followed
by the maximal run of class characters, accepted when the run contains
the keyword. -/
def tryUrlAt (k : Kw) (l : List Char) : Option (List Char × List Char) :=
  let plen :=
    if lowerL (l.take 8) = "https://".toList then 8
    else if lowerL (l.take 7) = "http://".toList then 7
    else 0
  if plen = 0 then none
  else
    let rest := l.drop plen
    let run := rest.takeWhile urlRunChar
    if containsKw k (lowerL run) then some (l.take plen ++ run, rest.drop run.length)
    else none

/-- One attempt of `<([^>]+)>` at the head of `l`. -/
def tryAngleAt (l : List Char) : Option (List Char × List Char) :=
  match l with
  | '<' :: rest =>
    let content := rest.takeWhile (fun c => c != '>')
    match rest.drop content.length with
    | _ :: rest2 => if content = [] then none else some (content, rest2)
    | [] => none
  | _ => none

/-- Character class `[^\s,>]` of the bracketless header pattern. -/
def headerRunChar (c : Char) : Bool :=
  !(isPyWs c || c == ',' || c == '>')

/-- One attempt of `(https?://[^\s,>]+|mailto:[^\s,>]+)` (case-sensitive)
at the head of `l`. -/
def tryDirectAt (l : List Char) : Option (List Char × List Char) :=
  if ("https://".toList).isPrefixOf l then
    let rest := l.drop 8
    let run := rest.takeWhile headerRunChar
    if run = [] then none else some (l.take 8 ++ run, rest.drop run.length)
  else if ("http://".toList).isPrefixOf l then
    let rest := l.drop 7
    let run := rest.takeWhile headerRunChar
    if run = [] then none else some (l.take 7 ++ run, rest.drop run.length)
  else if ("mailto:".toList).isPrefixOf l then
    let rest := l.drop 7
    let run := rest.takeWhile headerRunChar
    if run = [] then none else some (l.take 7 ++ run, rest.drop run.length)
  else none

def hrefMatchesKw (k : Kw) (s : List Char) : List (List Char) :=
  scanWith (tryHrefAt k) s.length s

def textMatchesKw (k : Kw) (s : List Char) : List (List Char) :=
  scanWith (tryUrlAt k) s.length s

def findAllAngle (s : List Char) : List (List Char) :=
  scanWith tryAngleAt s.length s

def findAllDirect (s : List Char) : List (List Char) :=
  scanWith tryDirectAt s.length s

/-! ### `decode_quoted_printable` (extractor.py 167-186)

ASCII-level model of `quopri.decodestring` followed by a UTF-8 decode:
`=XY` hex escapes become the encoded byte, soft line breaks `=\n` and
`=\r\n` disappear, any other `=` is kept literally, and everything else
passes through. -/

def hexVal (c : Char) : Option Nat :=
  if c.isDigit then some (c.toNat - 48)
  else if 'A' ≤ c ∧ c ≤ 'F' then some (c.toNat - 55)
  else if 'a' ≤ c ∧ c ≤ 'f' then some (c.toNat - 87)
  else none

def qpDecode : Nat → List Char → List Char
  | 0, _ => []
  | _, [] => []
  | fuel + 1, '=' :: rest =>
    (match rest with
     | '\n' :: r => qpDecode fuel r
     | '\r' :: '\n' :: r => qpDecode fuel r
     | a :: b :: r =>
       match hexVal a, hexVal b with
       | some x, some y => Char.ofNat (16 * x + y) :: qpDecode fuel r
       | _, _ => '=' :: qpDecode fuel rest
     | _ => '=' :: qpDecode fuel rest)
  | fuel + 1, c :: rest => c :: qpDecode fuel rest

def decode_quoted_printable (t : List Char) : List Char :=
  qpDecode t.length t

/-! ### Data model: `UnsubscribeLink` (storage record built by the extractor) -/

structure UnsubscribeLink where
  email_id : List Char
  link_url : Option (List Char)
  mailto_address : Option (List Char)
  list_unsubscribe_header : Option (List Char)
  source : List Char
  status : List Char
  error : Option (List Char)
deriving DecidableEq, Repr

/-! ### `extract_all_unsubscribe_links_from_html` (extractor.py 189-249)

BeautifulSoup is the capability `HtmlCap`: it returns the `(href, text)`
pairs of the `<a href=...>` elements of the markup (`text` is the
element's stripped visible text), or `none` when parsing fails.  The
whole enumeration runs inside `try/except`, and the accumulator lives
outside it, so an exception raised mid-loop (only `urlparse` can raise)
yields the partial list collected so far. -/

abbrev HtmlCap := List Char → Option (List (List Char × List Char))

def fullKeywords : List (List Char) :=
  ["unsubscribe".toList, "unsub".toList, "opt-out".toList,
   "optout".toList, "remove".toList, "preferences".toList]

/-- The candidate test of the markup-aware strategy: any keyword occurs in
the lowered href or in the lowered link text. -/
def isUnsubLink (hrefLower textLower : List Char) : Bool :=
  fullKeywords.any (fun k => containsSeq k hrefLower) ||
  fullKeywords.any (fun k => containsSeq k textLower)

def htmlLoop (acc : List (List Char)) :
    List (List Char × List Char) → List (List Char)
  | [] => acc
  | (href, text) :: rest =>
    if isUnsubLink (lowerL href) (lowerL text) then
      let url := despace (pyStrip href)
      match urlparse url with
      | .error _ => acc
      | .ok parsed =>
        if parsed.scheme = "http".toList ∨ parsed.scheme = "https".toList then
          match validate_url url with
          | .error _ => acc
          | .ok v =>
            if v then htmlLoop (if acc.contains url then acc else acc ++ [url]) rest
            else htmlLoop acc rest
        else htmlLoop acc rest
    else htmlLoop acc rest

def extract_all_unsubscribe_links_from_html (ph : HtmlCap)
    (htmlContent : List Char) : List (List Char) :=
  match ph htmlContent with
  | none => []
  | some links => htmlLoop [] links

/-! ### Body extraction (extractor.py 252-367) -/

/-- Cleaning applied to every regex match before validation:
`match.rstrip(".,;:!?)").replace(" ", "")`. -/
def cleanUrl (m : List Char) : List Char :=
  despace (rstripPunct m)

/-- The shared loop body of the regex strategies: clean each match, parse
it, and append it to the accumulator when its scheme is `http`/`https`,
it validates, and it is not already present.  `urlparse` is called
outside any `try`, so its `ValueError` propagates. -/
def addMatches : List (List Char) → List (List Char) →
    Except String (List (List Char))
  | [], acc => .ok acc
  | m :: ms, acc =>
    let url := cleanUrl m
    match urlparse url with
    | .error e => .error e
    | .ok parsed =>
      if parsed.scheme = "http".toList ∨ parsed.scheme = "https".toList then
        match validate_url url with
        | .error e => .error e
        | .ok v =>
          if v then addMatches ms (if acc.contains url then acc else acc ++ [url])
          else addMatches ms acc
      else addMatches ms acc

/-- The three `href=...` patterns, run in source order. -/
def hrefMatchesAll (bt : List Char) : List (List Char) :=
  hrefMatchesKw Kw.unsub bt ++ hrefMatchesKw Kw.unsubscribe bt ++
  hrefMatchesKw Kw.optout bt

/-- The three plain-text URL patterns, run in source order. -/
def textMatchesAll (bt : List Char) : List (List Char) :=
  textMatchesKw Kw.unsub bt ++ textMatchesKw Kw.unsubscribe bt ++
  textMatchesKw Kw.optout bt

/-- Strategy 1 (markup-aware): BeautifulSoup over the quoted-printable
decoded markup, when markup is available. -/
def bodyMethod1 (ph : HtmlCap) (htmlContent : Option (List Char)) :
    List (List Char) :=
  match htmlContent with
  | some hc => extract_all_unsubscribe_links_from_html ph (decode_quoted_printable hc)
  | none => []

/-- Strategy 2 (markup-pattern fallback): `href` regexes over the body. -/
def bodyMethod2 (bt : List Char) : Except String (List (List Char)) :=
  addMatches (hrefMatchesAll bt) []

/-- Strategy 3 (plain-text fallback): bare-URL regexes over the body. -/
def bodyMethod3 (bt : List Char) : Except String (List (List Char)) :=
  addMatches (textMatchesAll bt) []

def mkBodyLink (emailId url : List Char) : UnsubscribeLink :=
  ⟨emailId, some url, none, none, "body".toList, "pending".toList, none⟩

/-- `extract_unsubscribe_from_body`: the single-best path.  Each later
strategy runs only when the accumulated list is still empty, and the
first collected URL becomes the record's `link_url`. -/
def extract_unsubscribe_from_body (ph : HtmlCap) (bodyText emailId : List Char)
    (htmlContent : Option (List Char)) : Except String (Option UnsubscribeLink) :=
  let urls0 := bodyMethod1 ph htmlContent
  match (if urls0 = [] then bodyMethod2 bodyText else .ok urls0) with
  | .error e => .error e
  | .ok urls1 =>
    match (if urls1 = [] then bodyMethod3 bodyText else .ok urls1) with
    | .error e => .error e
    | .ok urls2 =>
      .ok (match urls2 with
           | [] => none
           | u :: _ => some (mkBodyLink emailId u))

/-- `extract_all_unsubscribe_urls_from_body`: the extract-all path used by
the orchestrator.  The markup-aware URLs seed the accumulator and all six
regex patterns are then run unconditionally over the body text. -/
def extract_all_unsubscribe_urls_from_body (ph : HtmlCap) (bodyText : List Char)
    (htmlContent : Option (List Char)) : Except String (List (List Char)) :=
  addMatches (hrefMatchesAll bodyText ++ textMatchesAll bodyText)
    (bodyMethod1 ph htmlContent)

/-! ### `extract_list_unsubscribe_header` (extractor.py 89-164)

The message-dict plumbing (finding the last `List-Unsubscribe` header) is
represented by the `Option (List Char)` argument holding that header's
raw value when present. -/

/-- Classify the angle-bracket tokens: spaces are removed from each token,
`mailto:`-prefixed tokens contribute the address after the prefix, and
`http(s)://`-prefixed tokens contribute URLs; anything else is dropped. -/
def classifyAngleTokens : List (List Char) → List (List Char) × List (List Char)
  | [] => ([], [])
  | m :: rest =>
    let r := classifyAngleTokens rest
    let m' := despace m
    if ("mailto:".toList).isPrefixOf m' then (r.1, m'.drop 7 :: r.2)
    else if ("http://".toList).isPrefixOf m' ∨ ("https://".toList).isPrefixOf m' then
      (m' :: r.1, r.2)
    else r

/-- Classify the bracketless fallback tokens (these always start with
`http://`, `https://` or `mailto:` by construction of the pattern). -/
def classifyDirectTokens : List (List Char) → List (List Char) × List (List Char)
  | [] => ([], [])
  | m :: rest =>
    let r := classifyDirectTokens rest
    if ("mailto:".toList).isPrefixOf m then (r.1, m.drop 7 :: r.2)
    else (m :: r.1, r.2)

def extract_list_unsubscribe_header (listUnsubscribe : Option (List Char))
    (emailId : List Char) : Option UnsubscribeLink :=
  match listUnsubscribe with
  | none => none
  | some lu =>
    if lu = [] then none
    else
      let ms := findAllAngle lu
      let classified :=
        if ms = [] then classifyDirectTokens (findAllDirect (despace lu))
        else classifyAngleTokens ms
      match classified.1 with
      | u :: _ =>
        some ⟨emailId, some u, classified.2.head?, some lu,
              "header".toList, "pending".toList, none⟩
      | [] =>
        match classified.2 with
        | a :: _ =>
          some ⟨emailId, none, some a, some lu,
                "header".toList, "pending".toList, none⟩
        | [] => none

/-! ### Sender dedup / state tracker

The `storage` module is not among the sources; only its call sites in
`cli.py` are.  The per-sender debounce table and its two queries are
therefore modelled from the spec. -/

/-- Modelled from the spec: the durable `SenderDebounceRecord` table of
the Sender Dedup/State Tracker (`storage.py` is not among the sources) —
`sender_address`, `last_unsubscribed_at` timestamp. -/
structure Store where
  senderLast : List (List Char × Int)

def lookupSender (st : Store) (sender : List Char) : Option Int :=
  match st.senderLast.find? (fun p => p.1 == sender) with
  | some p => some p.2
  | none => none

/-- Modelled from the spec: `storage.should_unsubscribe_from_sender` — an
orchestration run must not be attempted for a sender whose
`last_unsubscribed_at` is at or after the message's received time. -/
def should_unsubscribe_from_sender (st : Store) (sender : List Char)
    (msgTime : Int) : Bool :=
  match lookupSender st sender with
  | none => true
  | some ts => decide (ts < msgTime)

/-- Modelled from the spec: `storage.get_last_unsubscribed_date`. -/
def get_last_unsubscribed_date (st : Store) (sender : List Char) : Option Int :=
  lookupSender st sender

/-! ### Multi-channel execution orchestrator (cli.py 509-787)

The per-message body of the `unsubscribe` command, for a run with
confirmation disabled (`--yes`).  Collaborators are capabilities; each
externally visible call is recorded as an `Event` so ordering and
non-invocation can be stated. -/

inductive Event
  | mailtoSend (addr : List Char)
  | oneClickPost (url : List Char)
  | probe (url : List Char)
  | browser (url : List Char)
deriving DecidableEq, Repr

structure Config where
  enableMailto : Bool
  headless : Bool
deriving Repr

structure Collab where
  mailtoSend : List Char → Bool
  postResp : List Char → Except String Nat
  headResp : List Char → Except String Nat
  browser : List Char → Bool
  parseHtml : HtmlCap

/-- Message data the orchestration consults: the metadata headers (for the
`List-Unsubscribe-Post` check) and the parsed body. -/
structure MessageData where
  headers : List (List Char × List Char)
  bodyText : List Char
  htmlContent : Option (List Char)

/-- The `List-Unsubscribe-Post: ... List-Unsubscribe=One-Click ...` header
check (cli.py 636-644). -/
def hasOneClick (headers : List (List Char × List Char)) : Bool :=
  headers.any (fun p =>
    lowerL p.1 == "list-unsubscribe-post".toList &&
    containsSeq ("List-Unsubscribe=One-Click".toList) p.2)

/-- Modelled from the spec: `send_http_post_unsubscribe` lives in
`gmail_ai_unsub/unsubscribe/email_unsub.py`, which is not among the
sources; per the spec the RFC 8058 POST succeeds exactly on a 2xx
response, and a network failure is a failed channel. -/
def send_http_post_unsubscribe (collab : Collab) (url : List Char) : Bool :=
  match collab.postResp url with
  | .ok s => decide (200 ≤ s ∧ s < 300)
  | .error _ => false

/-- Modelled from the spec: `send_mailto_unsubscribe` (also in
`email_unsub.py`, not among the sources) — the mail-send collaborator
reports whether delivery was accepted. -/
def send_mailto_unsubscribe (collab : Collab) (addr : List Char) : Bool :=
  collab.mailtoSend addr

/-- The probe-and-skip decision of the URL loop (cli.py 713-719): skip
when the probe is definitive — not accessible with status exactly 404. -/
def skip404 (collab : Collab) (url : List Char) : Bool :=
  let r := test_url_accessibility collab.headResp url
  !r.1 && r.2 == some 404

/-- The `for i, url_to_try in enumerate(urls_to_try, 1)` loop (cli.py
706-757): the first URL is attempted without probing; every later URL is
probed first and skipped on a definitive 404; the loop stops at the first
browser success and records the URL that worked. -/
def tryUrlsGo (collab : Collab) : List (List Char) → Nat →
    Bool × Option (List Char) × List Event
  | [], _ => (false, none, [])
  | u :: rest, i =>
    if 1 < i then
      if skip404 collab u then
        let r := tryUrlsGo collab rest (i + 1)
        (r.1, r.2.1, Event.probe u :: r.2.2)
      else if collab.browser u then (true, some u, [Event.probe u, Event.browser u])
      else
        let r := tryUrlsGo collab rest (i + 1)
        (r.1, r.2.1, Event.probe u :: Event.browser u :: r.2.2)
    else
      if collab.browser u then (true, some u, [Event.browser u])
      else
        let r := tryUrlsGo collab rest (i + 1)
        (r.1, r.2.1, Event.browser u :: r.2.2)

def tryUrls (collab : Collab) (urls : List (List Char)) :
    Bool × Option (List Char) × List Event :=
  tryUrlsGo collab urls 1

/-- Append each new element not already present (cli.py 692-694). -/
def appendNew (base : List (List Char)) : List (List Char) → List (List Char)
  | [] => base
  | u :: rest => appendNew (if base.contains u then base else base ++ [u]) rest

/-- The candidate-URL collection of the UI-automation channel (cli.py
679-694): the header URL first when it validates, then every body-derived
URL not already present, in scan order. -/
def collectUrlsToTry (collab : Collab) (headerUrl : List Char)
    (bodyText : List Char) (htmlContent : Option (List Char)) :
    Except String (List (List Char)) :=
  match validate_url headerUrl with
  | .error e => .error e
  | .ok v =>
    let base := if v then [headerUrl] else []
    match extract_all_unsubscribe_urls_from_body collab.parseHtml bodyText htmlContent with
    | .error e => .error e
    | .ok bodyUrls => .ok (appendNew base bodyUrls)

/-- The channel sequence of one attempt (cli.py 594-760): mailto first
(result only counted when no URL exists), then the one-click POST when
the one-click header is present (its result is printed but never used for
the final status), then the browser loop over every collected URL.
Returns the final success flag and the URL that worked, alongside the
trace of collaborator invocations; a raised exception surfaces as
`.error` (caught by the caller's `try/except`). -/
def attemptUnsubscribe (collab : Collab) (cfg : Config) (link : UnsubscribeLink)
    (msg : MessageData) :
    Except String (Bool × Option (List Char)) × List Event :=
  let mailtoStep :=
    match link.mailto_address with
    | some addr =>
      if cfg.enableMailto then
        (send_mailto_unsubscribe collab addr, [Event.mailtoSend addr])
      else (false, [])
    | none => (false, [])
  let postEvents :=
    match link.link_url with
    | some url =>
      if hasOneClick msg.headers then
        let _postSuccess := send_http_post_unsubscribe collab url
        [Event.oneClickPost url]
      else []
    | none => []
  match link.link_url with
  | some headerUrl =>
    (match collectUrlsToTry collab headerUrl msg.bodyText msg.htmlContent with
     | .error e => (.error e, mailtoStep.2 ++ postEvents)
     | .ok urlsToTry =>
       let r := tryUrls collab urlsToTry
       (.ok (r.1, r.2.1), mailtoStep.2 ++ postEvents ++ r.2.2))
  | none => (.ok (mailtoStep.1, none), mailtoStep.2 ++ postEvents)

inductive Outcome
  | skipped
  | success
  | failed (err : List Char)
deriving DecidableEq, Repr

/-- One iteration of the per-email loop (cli.py 509-787), with
confirmation disabled: the sender debounce check first (skip with no
channel invocation), then the missing-link failure, then the attempt,
whose raised exceptions become a `failed` record via the surrounding
`try/except`. -/
def processMessage (collab : Collab) (cfg : Config) (st : Store)
    (link : Option UnsubscribeLink) (msg : MessageData)
    (sender : List Char) (emailDate : Int) : Outcome × List Event :=
  if !should_unsubscribe_from_sender st sender emailDate &&
     (get_last_unsubscribed_date st sender).isSome then
    (.skipped, [])
  else
    match link with
    | none => (.failed ("No unsubscribe link found".toList), [])
    | some l =>
      match attemptUnsubscribe collab cfg l msg with
      | (.error e, evs) => (.failed e.toList, evs)
      | (.ok (true, _), evs) => (.success, evs)
      | (.ok (false, _), evs) => (.failed ("Unsubscribe attempt failed".toList), evs)

/-! ### Concrete fixtures for closed statements -/

/-- A markup capability that always fails to parse (irrelevant whenever
`htmlContent` is absent). -/
def trivHtml : HtmlCap := fun _ => none

/-- A collaborator bundle: mail send fails, every HTTP POST answers 200,
every HEAD probe answers 200, the browser agent never succeeds. -/
def collabTriv : Collab :=
  { mailtoSend := fun _ => false
    postResp := fun _ => .ok 200
    headResp := fun _ => .ok 200
    browser := fun _ => false
    parseHtml := trivHtml }

/-- Configuration of a `--yes` run with the mailto channel enabled. -/
def cfgYes : Config := { enableMailto := true, headless := true }

def emptyStore : Store := ⟨[]⟩

def urlC1 : List Char := "https://x.example/unsub".toList

def linkC1 : UnsubscribeLink :=
  { email_id := "m1".toList
    link_url := some urlC1
    mailto_address := none
    list_unsubscribe_header := some ("<https://x.example/unsub>".toList)
    source := "header".toList
    status := "pending".toList
    error := none }

def msgC1 : MessageData :=
  { headers := [("List-Unsubscribe-Post".toList, "List-Unsubscribe=One-Click".toList)]
    bodyText := []
    htmlContent := none }

def hvC2 : List Char := "<https://a.example/unsub>, <https://b.example/unsub>".toList

def urlA : List Char := "https://a.example/unsub".toList

def urlB : List Char := "https://b.example/unsub".toList

/-- A markup capability exposing a single anchor whose target mentions
only `remove`. -/
def phRemove : HtmlCap :=
  fun _ => some [("https://x.example/remove?id=1".toList, "Remove me".toList)]

/-! ## Helper lemmas -/

theorem skip404_of_404 (collab : Collab) (u : List Char)
    (h : collab.headResp u = .ok 404) : skip404 collab u = true := by
  unfold skip404 test_url_accessibility
  rw [h]
  rfl

/-- Any browser event emitted by the URL loop names a URL of the list. -/
theorem tryUrlsGo_browse_mem (collab : Collab) (urls : List (List Char)) :
    ∀ (i : Nat) (v : List Char),
      Event.browser v ∈ (tryUrlsGo collab urls i).2.2 → v ∈ urls := by
  induction urls with
  | nil =>
    intro i v h
    simp [tryUrlsGo] at h
  | cons u rest ih =>
    intro i v h
    simp only [tryUrlsGo] at h
    by_cases hi : 1 < i
    · simp only [if_pos hi] at h
      by_cases hs : skip404 collab u = true
      · simp only [if_pos hs, List.mem_cons] at h
        rcases h with h | h
        · exact Event.noConfusion h
        · exact List.mem_cons_of_mem _ (ih (i + 1) v h)
      · simp only [if_neg hs] at h
        by_cases hb : collab.browser u = true
        · simp only [if_pos hb, List.mem_cons, List.not_mem_nil, or_false] at h
          rcases h with h | h
          · exact Event.noConfusion h
          · rcases Event.browser.inj h with rfl
            exact List.mem_cons_self _ _
        · simp only [if_neg hb, List.mem_cons] at h
          rcases h with h | h | h
          · exact Event.noConfusion h
          · rcases Event.browser.inj h with rfl
            exact List.mem_cons_self _ _
          · exact List.mem_cons_of_mem _ (ih (i + 1) v h)
    · simp only [if_neg hi] at h
      by_cases hb : collab.browser u = true
      · simp only [if_pos hb, List.mem_cons, List.not_mem_nil, or_false] at h
        rcases Event.browser.inj h with rfl
        exact List.mem_cons_self _ _
      · simp only [if_neg hb, List.mem_cons] at h
        rcases h with h | h
        · rcases Event.browser.inj h with rfl
          exact List.mem_cons_self _ _
        · exact List.mem_cons_of_mem _ (ih (i + 1) v h)

/-- With every position strictly after the first, a URL whose probe says
"definitive 404" is never passed to the browser. -/
theorem tryUrlsGo_no_browse (collab : Collab) (urls : List (List Char)) :
    ∀ (i : Nat), 1 < i → ∀ w, w ∈ urls → skip404 collab w = true →
      Event.browser w ∉ (tryUrlsGo collab urls i).2.2 := by
  induction urls with
  | nil =>
    intro i _ w hw
    simp at hw
  | cons u rest ih =>
    intro i hi w hw hsk
    simp only [tryUrlsGo, if_pos hi]
    by_cases hs : skip404 collab u = true
    · simp only [if_pos hs]
      intro hmem
      simp only [List.mem_cons] at hmem
      rcases hmem with h | h
      · exact Event.noConfusion h
      · have hwrest : w ∈ rest := tryUrlsGo_browse_mem collab rest (i + 1) w h
        exact ih (i + 1) (by omega) w hwrest hsk h
    · have hwu : w ≠ u := fun he => hs (he ▸ hsk)
      simp only [if_neg hs]
      by_cases hb : collab.browser u = true
      · simp only [if_pos hb]
        intro hmem
        simp only [List.mem_cons, List.not_mem_nil, or_false] at hmem
        rcases hmem with h | h
        · exact Event.noConfusion h
        · exact hwu (Event.browser.inj h)
      · simp only [if_neg hb]
        intro hmem
        simp only [List.mem_cons] at hmem
        rcases hmem with h | h | h
        · exact Event.noConfusion h
        · exact hwu (Event.browser.inj h)
        · have hwrest : w ∈ rest := by
            rcases List.mem_cons.mp hw with he | he
            · exact absurd he hwu
            · exact he
          exact ih (i + 1) (by omega) w hwrest hsk h

/-- The first URL of the loop is always passed to the browser. -/
theorem tryUrls_first_browsed (collab : Collab) (u : List Char)
    (rest : List (List Char)) :
    Event.browser u ∈ (tryUrls collab (u :: rest)).2.2 := by
  unfold tryUrls
  simp only [tryUrlsGo, if_neg (show ¬(1 : Nat) < 1 by omega)]
  by_cases hb : collab.browser u = true
  · simp [hb]
  · simp [hb]

/-- Updating the POST collaborator changes no other capability. -/
theorem skip404_postResp (collab : Collab) (p : List Char → Except String Nat)
    (u : List Char) :
    skip404 { collab with postResp := p } u = skip404 collab u := rfl

theorem browser_postResp (collab : Collab) (p : List Char → Except String Nat) :
    ({ collab with postResp := p } : Collab).browser = collab.browser := rfl

theorem mailto_postResp (collab : Collab) (p : List Char → Except String Nat)
    (a : List Char) :
    send_mailto_unsubscribe { collab with postResp := p } a =
      send_mailto_unsubscribe collab a := rfl

theorem collect_postResp (collab : Collab) (p : List Char → Except String Nat)
    (h bt : List Char) (hc : Option (List Char)) :
    collectUrlsToTry { collab with postResp := p } h bt hc =
      collectUrlsToTry collab h bt hc := rfl

theorem tryUrlsGo_postResp (collab : Collab) (p : List Char → Except String Nat)
    (urls : List (List Char)) :
    ∀ i, tryUrlsGo { collab with postResp := p } urls i =
      tryUrlsGo collab urls i := by
  induction urls with
  | nil => intro i; rfl
  | cons u rest ih =>
    intro i
    simp only [tryUrlsGo, skip404_postResp, browser_postResp, ih]

theorem tryUrls_postResp (collab : Collab) (p : List Char → Except String Nat)
    (urls : List (List Char)) :
    tryUrls { collab with postResp := p } urls = tryUrls collab urls :=
  tryUrlsGo_postResp collab p urls 1

/-- The POST collaborator's response plays no part in the attempt: its
result is bound and discarded (cli.py 661-668). -/
theorem attempt_postResp (collab : Collab) (p : List Char → Except String Nat)
    (cfg : Config) (link : UnsubscribeLink) (msg : MessageData) :
    attemptUnsubscribe { collab with postResp := p } cfg link msg =
      attemptUnsubscribe collab cfg link msg := by
  simp only [attemptUnsubscribe, mailto_postResp, collect_postResp, tryUrls_postResp]

theorem processMessage_postResp (collab : Collab)
    (p : List Char → Except String Nat) (cfg : Config) (st : Store)
    (link : Option UnsubscribeLink) (msg : MessageData)
    (sender : List Char) (t : Int) :
    processMessage { collab with postResp := p } cfg st link msg sender t =
      processMessage collab cfg st link msg sender t := by
  simp only [processMessage, attempt_postResp]

/-- When the debounce allows the run, the recorded events are exactly the
attempt's events. -/
theorem processMessage_events (collab : Collab) (cfg : Config) (st : Store)
    (l : UnsubscribeLink) (msg : MessageData) (sender : List Char) (t : Int)
    (hdeb : should_unsubscribe_from_sender st sender t = true) :
    (processMessage collab cfg st (some l) msg sender t).2 =
      (attemptUnsubscribe collab cfg l msg).2 := by
  unfold processMessage
  rw [hdeb]
  simp only [Bool.not_true, Bool.false_and, Bool.false_eq_true, if_false]
  generalize attemptUnsubscribe collab cfg l msg = A
  rcases A with ⟨res, evs⟩
  rcases res with e | pr
  · rfl
  · rcases pr with ⟨b, w⟩
    cases b <;> rfl

/-- When the link has a URL and the one-click header is present, the
attempt's event trace is: possibly a mailto send, then the one-click
POST, then the browser-loop events — so the POST precedes every browser
invocation. -/
theorem attempt_events_shape (collab : Collab) (cfg : Config)
    (link : UnsubscribeLink) (msg : MessageData) (url : List Char)
    (hurl : link.link_url = some url) (h1c : hasOneClick msg.headers = true) :
    ∃ l1 l2, (attemptUnsubscribe collab cfg link msg).2 =
      l1 ++ Event.oneClickPost url :: l2 ∧ ∀ v, Event.browser v ∉ l1 := by
  rcases hma : link.mailto_address with _ | addr
  · rcases hcol : collectUrlsToTry collab url msg.bodyText msg.htmlContent with e | us
    · refine ⟨[], [], ?_, fun v => List.not_mem_nil _⟩
      simp [attemptUnsubscribe, hurl, h1c, hma, hcol]
    · refine ⟨[], (tryUrls collab us).2.2, ?_, fun v => List.not_mem_nil _⟩
      simp [attemptUnsubscribe, hurl, h1c, hma, hcol]
  · by_cases hen : cfg.enableMailto = true
    · rcases hcol : collectUrlsToTry collab url msg.bodyText msg.htmlContent with e | us
      · refine ⟨[Event.mailtoSend addr], [], ?_, ?_⟩
        · simp [attemptUnsubscribe, hurl, h1c, hma, hcol, hen]
        · intro v hmem
          exact Event.noConfusion (List.mem_singleton.mp hmem)
      · refine ⟨[Event.mailtoSend addr], (tryUrls collab us).2.2, ?_, ?_⟩
        · simp [attemptUnsubscribe, hurl, h1c, hma, hcol, hen]
        · intro v hmem
          exact Event.noConfusion (List.mem_singleton.mp hmem)
    · rcases hcol : collectUrlsToTry collab url msg.bodyText msg.htmlContent with e | us
      · refine ⟨[], [], ?_, fun v => List.not_mem_nil _⟩
        simp [attemptUnsubscribe, hurl, h1c, hma, hcol, hen]
      · refine ⟨[], (tryUrls collab us).2.2, ?_, fun v => List.not_mem_nil _⟩
        simp [attemptUnsubscribe, hurl, h1c, hma, hcol, hen]

theorem despace_not_space (l : List Char) : ' ' ∉ despace l := by
  intro h
  rcases List.mem_filter.mp h with ⟨_, hp⟩
  simp at hp

/-- One step of the regex-match accumulation loop: the new accumulator
extends the old one by at most the cleaned head match, preserves
membership and nodup, and contains the cleaned head whenever the head
parses with an `http(s)` scheme and validates. -/
theorem addMatches_step (m : List Char) (ms : List (List Char))
    (acc us : List (List Char)) (h : addMatches (m :: ms) acc = .ok us) :
    ∃ acc', addMatches ms acc' = .ok us ∧
      (∀ u, u ∈ acc → u ∈ acc') ∧
      (∀ u, u ∈ acc' → u ∈ acc ∨ u = cleanUrl m) ∧
      (acc.Nodup → acc'.Nodup) ∧
      (∀ p, urlparse (cleanUrl m) = .ok p →
        (p.scheme = "http".toList ∨ p.scheme = "https".toList) →
        validate_url (cleanUrl m) = .ok true → cleanUrl m ∈ acc') := by
  simp only [addMatches] at h
  rcases hp : urlparse (cleanUrl m) with e | parsed
  · simp only [hp] at h
    exact absurd h (by simp)
  · simp only [hp] at h
    by_cases hsch : parsed.scheme = "http".toList ∨ parsed.scheme = "https".toList
    · rw [if_pos hsch] at h
      rcases hv : validate_url (cleanUrl m) with e | v
      · simp only [hv] at h
        exact absurd h (by simp)
      · simp only [hv] at h
        cases v with
        | true =>
          rw [if_pos rfl] at h
          by_cases hcont : acc.contains (cleanUrl m) = true
          · rw [if_pos hcont] at h
            refine ⟨acc, h, fun u hu => hu, fun u hu => Or.inl hu, fun hn => hn, ?_⟩
            intro p _ _ _
            exact List.mem_of_elem_eq_true hcont
          · rw [if_neg hcont] at h
            have hnm : cleanUrl m ∉ acc := fun hm => hcont (List.elem_eq_true_of_mem hm)
            refine ⟨acc ++ [cleanUrl m], h, fun u hu => List.mem_append_left _ hu,
              fun u hu => ?_, fun hn => by simp [List.nodup_append, hn, hnm], ?_⟩
            · rcases List.mem_append.mp hu with hu | hu
              · exact Or.inl hu
              · exact Or.inr (List.mem_singleton.mp hu)
            · intro p _ _ _
              exact List.mem_append_right _ (List.mem_singleton.mpr rfl)
        | false =>
          rw [if_neg (by simp)] at h
          refine ⟨acc, h, fun u hu => hu, fun u hu => Or.inl hu, fun hn => hn, ?_⟩
          intro p _ _ hval
          exact absurd (Except.ok.inj hval) (by simp)
    · rw [if_neg hsch] at h
      refine ⟨acc, h, fun u hu => hu, fun u hu => Or.inl hu, fun hn => hn, ?_⟩
      intro p hp' hsch' _
      rw [Except.ok.inj hp'] at hsch
      exact absurd hsch' hsch

theorem addMatches_sub (ms : List (List Char)) :
    ∀ acc us, addMatches ms acc = .ok us → ∀ u ∈ acc, u ∈ us := by
  induction ms with
  | nil =>
    intro acc us h u hu
    simp only [addMatches, Except.ok.injEq] at h
    exact h ▸ hu
  | cons m ms ih =>
    intro acc us h u hu
    rcases addMatches_step m ms acc us h with ⟨acc', h', hsub, _, _, _⟩
    exact ih acc' us h' u (hsub u hu)

theorem addMatches_prov (ms : List (List Char)) :
    ∀ acc us, addMatches ms acc = .ok us →
      ∀ u ∈ us, u ∈ acc ∨ ∃ m ∈ ms, u = cleanUrl m := by
  induction ms with
  | nil =>
    intro acc us h u hu
    simp only [addMatches, Except.ok.injEq] at h
    exact Or.inl (h ▸ hu)
  | cons m ms ih =>
    intro acc us h u hu
    rcases addMatches_step m ms acc us h with ⟨acc', h', _, hsup, _, _⟩
    rcases ih acc' us h' u hu with hu' | ⟨m', hm', he⟩
    · rcases hsup u hu' with hu'' | he
      · exact Or.inl hu''
      · exact Or.inr ⟨m, List.mem_cons_self _ _, he⟩
    · exact Or.inr ⟨m', List.mem_cons_of_mem _ hm', he⟩

theorem addMatches_nodup (ms : List (List Char)) :
    ∀ acc us, addMatches ms acc = .ok us → acc.Nodup → us.Nodup := by
  induction ms with
  | nil =>
    intro acc us h hn
    simp only [addMatches, Except.ok.injEq] at h
    exact h ▸ hn
  | cons m ms ih =>
    intro acc us h hn
    rcases addMatches_step m ms acc us h with ⟨acc', h', _, _, hnd, _⟩
    exact ih acc' us h' (hnd hn)

theorem addMatches_good (ms : List (List Char)) :
    ∀ acc us, addMatches ms acc = .ok us →
      ∀ m ∈ ms, ∀ p, urlparse (cleanUrl m) = .ok p →
        (p.scheme = "http".toList ∨ p.scheme = "https".toList) →
        validate_url (cleanUrl m) = .ok true → cleanUrl m ∈ us := by
  induction ms with
  | nil =>
    intro acc us _ m hm
    exact absurd hm (List.not_mem_nil m)
  | cons m0 ms ih =>
    intro acc us h m hm p hp hsch hval
    rcases addMatches_step m0 ms acc us h with ⟨acc', h', _, _, _, hgood⟩
    rcases List.mem_cons.mp hm with rfl | hm'
    · exact addMatches_sub ms acc' us h' _ (hgood p hp hsch hval)
    · exact ih acc' us h' m hm' p hp hsch hval

/-- Every URL collected by the markup-aware loop is either inherited from
the accumulator or is the space-stripped form of some anchor's href. -/
theorem htmlLoop_prov (links : List (List Char × List Char)) :
    ∀ acc u, u ∈ htmlLoop acc links →
      u ∈ acc ∨ ∃ href, u = despace (pyStrip href) := by
  induction links with
  | nil =>
    intro acc u hu
    exact Or.inl hu
  | cons lk rest ih =>
    intro acc u hu
    rcases lk with ⟨href, text⟩
    simp only [htmlLoop] at hu
    by_cases hk : isUnsubLink (lowerL href) (lowerL text) = true
    · rw [if_pos hk] at hu
      rcases hq : urlparse (despace (pyStrip href)) with e | parsed
      · simp only [hq] at hu
        exact Or.inl hu
      · simp only [hq] at hu
        by_cases hsch : parsed.scheme = "http".toList ∨ parsed.scheme = "https".toList
        · rw [if_pos hsch] at hu
          rcases hv : validate_url (despace (pyStrip href)) with e | v
          · simp only [hv] at hu
            exact Or.inl hu
          · simp only [hv] at hu
            cases v with
            | true =>
              rw [if_pos rfl] at hu
              rcases ih _ u hu with hu' | he
              · by_cases hcont : acc.contains (despace (pyStrip href)) = true
                · rw [if_pos hcont] at hu'
                  exact Or.inl hu'
                · rw [if_neg hcont] at hu'
                  rcases List.mem_append.mp hu' with hu'' | hu''
                  · exact Or.inl hu''
                  · exact Or.inr ⟨href, List.mem_singleton.mp hu''⟩
              · exact Or.inr he
            | false =>
              rw [if_neg (by simp)] at hu
              exact ih _ u hu
        · rw [if_neg hsch] at hu
          exact ih _ u hu
    · rw [if_neg hk] at hu
      exact ih _ u hu

theorem htmlLoop_nodup (links : List (List Char × List Char)) :
    ∀ acc, acc.Nodup → (htmlLoop acc links).Nodup := by
  induction links with
  | nil =>
    intro acc hn
    exact hn
  | cons lk rest ih =>
    intro acc hn
    rcases lk with ⟨href, text⟩
    simp only [htmlLoop]
    by_cases hk : isUnsubLink (lowerL href) (lowerL text) = true
    · rw [if_pos hk]
      rcases hq : urlparse (despace (pyStrip href)) with e | parsed
      · simp only [hq]
        exact hn
      · simp only [hq]
        by_cases hsch : parsed.scheme = "http".toList ∨ parsed.scheme = "https".toList
        · rw [if_pos hsch]
          rcases hv : validate_url (despace (pyStrip href)) with e | v
          · simp only [hv]
            exact hn
          · simp only [hv]
            cases v with
            | true =>
              rw [if_pos rfl]
              by_cases hcont : acc.contains (despace (pyStrip href)) = true
              · rw [if_pos hcont]
                exact ih acc hn
              · rw [if_neg hcont]
                have hnm : despace (pyStrip href) ∉ acc :=
                  fun hm => hcont (List.elem_eq_true_of_mem hm)
                exact ih _ (by simp [List.nodup_append, hn, hnm])
            | false =>
              rw [if_neg (by simp)]
              exact ih acc hn
        · rw [if_neg hsch]
          exact ih acc hn
    · rw [if_neg hk]
      exact ih acc hn

theorem appendNew_sub_base (l : List (List Char)) :
    ∀ base u, u ∈ base → u ∈ appendNew base l := by
  induction l with
  | nil => intro base u hu; exact hu
  | cons v rest ih =>
    intro base u hu
    unfold appendNew
    by_cases hc : base.contains v = true
    · rw [if_pos hc]; exact ih base u hu
    · rw [if_neg hc]; exact ih _ u (List.mem_append_left _ hu)

theorem appendNew_sub_arg (l : List (List Char)) :
    ∀ base u, u ∈ l → u ∈ appendNew base l := by
  induction l with
  | nil => intro base u hu; exact absurd hu (List.not_mem_nil u)
  | cons v rest ih =>
    intro base u hu
    unfold appendNew
    rcases List.mem_cons.mp hu with rfl | hu'
    · by_cases hc : base.contains u = true
      · rw [if_pos hc]
        exact appendNew_sub_base rest base u (List.mem_of_elem_eq_true hc)
      · rw [if_neg hc]
        exact appendNew_sub_base rest _ u
          (List.mem_append_right _ (List.mem_singleton.mpr rfl))
    · by_cases hc : base.contains v = true
      · rw [if_pos hc]; exact ih base u hu'
      · rw [if_neg hc]; exact ih _ u hu'

theorem appendNew_prov (l : List (List Char)) :
    ∀ base u, u ∈ appendNew base l → u ∈ base ∨ u ∈ l := by
  induction l with
  | nil => intro base u hu; exact Or.inl hu
  | cons v rest ih =>
    intro base u hu
    unfold appendNew at hu
    by_cases hc : base.contains v = true
    · rw [if_pos hc] at hu
      rcases ih base u hu with h | h
      · exact Or.inl h
      · exact Or.inr (List.mem_cons_of_mem _ h)
    · rw [if_neg hc] at hu
      rcases ih _ u hu with h | h
      · rcases List.mem_append.mp h with h' | h'
        · exact Or.inl h'
        · exact Or.inr (List.mem_singleton.mp h' ▸ List.mem_cons_self _ _)
      · exact Or.inr (List.mem_cons_of_mem _ h)

theorem appendNew_nodup (l : List (List Char)) :
    ∀ base, base.Nodup → (appendNew base l).Nodup := by
  induction l with
  | nil => intro base hn; exact hn
  | cons v rest ih =>
    intro base hn
    unfold appendNew
    by_cases hc : base.contains v = true
    · rw [if_pos hc]; exact ih base hn
    · rw [if_neg hc]
      have hnm : v ∉ base := fun hm => hc (List.elem_eq_true_of_mem hm)
      exact ih _ (by simp [List.nodup_append, hn, hnm])

theorem appendNew_headq (l : List (List Char)) :
    ∀ base, base ≠ [] → (appendNew base l).head? = base.head? := by
  induction l with
  | nil => intro base _; rfl
  | cons v rest ih =>
    intro base hne
    unfold appendNew
    by_cases hc : base.contains v = true
    · rw [if_pos hc]; exact ih base hne
    · rw [if_neg hc]
      rcases base with _ | ⟨b, bs⟩
      · exact absurd rfl hne
      · rw [ih ((b :: bs) ++ [v]) (by simp)]
        rfl

theorem listContains_append (l1 l2 : List (List Char)) (a : List Char) :
    (l1 ++ l2).contains a = (l1.contains a || l2.contains a) := by
  induction l1 with
  | nil => simp
  | cons b bs ih => simp [List.contains_cons, ih, Bool.or_assoc]

/-- With a duplicate-free argument list, `appendNew` is exactly the base
followed by the argument's elements not already in the base, in the
argument's order. -/
theorem appendNew_eq (l : List (List Char)) :
    ∀ base, l.Nodup →
      appendNew base l = base ++ l.filter (fun u => !(base.contains u)) := by
  induction l with
  | nil =>
    intro base _
    simp [appendNew]
  | cons u rest ih =>
    intro base hnd
    rcases List.nodup_cons.mp hnd with ⟨hu, hnd'⟩
    unfold appendNew
    by_cases hc : base.contains u = true
    · rw [if_pos hc, ih base hnd',
        List.filter_cons_of_neg (by simp; exact List.mem_of_elem_eq_true hc)]
    · rw [if_neg hc, ih (base ++ [u]) hnd',
        List.filter_cons_of_pos
          (by simp; exact fun hm => hc (List.elem_eq_true_of_mem hm)),
        List.append_assoc]
      congr 1
      show u :: rest.filter (fun x => !((base ++ [u]).contains x)) =
        u :: rest.filter (fun x => !(base.contains x))
      congr 1
      refine List.filter_congr ?_
      intro x hx
      have hxu : x ≠ u := fun he => hu (he ▸ hx)
      simp [listContains_append, List.contains_cons,
        beq_eq_false_iff_ne.mpr hxu, hxu]

/-- The markup-aware strategy returns a duplicate-free URL list. -/
theorem bodyMethod1_nodup (ph : HtmlCap) (hc : Option (List Char)) :
    (bodyMethod1 ph hc).Nodup := by
  rcases hc with _ | hcv
  · simp [bodyMethod1]
  · simp only [bodyMethod1]
    unfold extract_all_unsubscribe_links_from_html
    rcases hph : ph (decode_quoted_printable hcv) with _ | links
    · simp
    · exact htmlLoop_nodup links [] List.nodup_nil

/-- The extract-all body scan returns a duplicate-free URL list. -/
theorem extract_all_nodup (ph : HtmlCap) (bt : List Char)
    (hc : Option (List Char)) (us : List (List Char))
    (h : extract_all_unsubscribe_urls_from_body ph bt hc = .ok us) :
    us.Nodup := by
  have h' : addMatches (hrefMatchesAll bt ++ textMatchesAll bt)
      (bodyMethod1 ph hc) = .ok us := h
  exact addMatches_nodup _ _ us h' (bodyMethod1_nodup ph hc)

/-- Every group emitted by a scan comes from a successful match attempt. -/
theorem scanWith_emitted (att : List Char → Option (List Char × List Char)) :
    ∀ fuel l g, g ∈ scanWith att fuel l → ∃ l' r, att l' = some (g, r) := by
  intro fuel
  induction fuel with
  | zero =>
    intro l g h
    simp [scanWith] at h
  | succ fuel ih =>
    intro l g h
    cases l with
    | nil => simp [scanWith] at h
    | cons c rest =>
      simp only [scanWith] at h
      rcases ha : att (c :: rest) with _ | ⟨g', rem⟩
      · simp only [ha] at h
        exact ih rest g h
      · simp only [ha] at h
        rcases List.mem_cons.mp h with rfl | h'
        · exact ⟨c :: rest, rem, ha⟩
        · exact ih rem g h'

theorem containsKw_append_left (k : Kw) (p r : List Char)
    (h : containsKw k r = true) : containsKw k (p ++ r) = true := by
  induction p with
  | nil => exact h
  | cons c cs ih =>
    have hstep : containsKw k (c :: (cs ++ r)) =
        (kwAt k (c :: (cs ++ r)) || containsKw k (cs ++ r)) := rfl
    rw [List.cons_append, hstep, ih, Bool.or_true]

/-- A successful `href` attempt only ever captures a group containing the
keyword (case-insensitively). -/
theorem tryHrefAt_contains (k : Kw) (l g r : List Char)
    (h : tryHrefAt k l = some (g, r)) : containsKw k (lowerL g) = true := by
  simp only [tryHrefAt] at h
  by_cases h5 : lowerL (l.take 5) = "href=".toList
  · rw [if_pos h5] at h
    rcases hd : l.drop 5 with _ | ⟨q, rest⟩
    · simp only [hd] at h
      exact absurd h (by simp)
    · simp only [hd] at h
      by_cases hq : isQuoteCh q = true
      · rw [if_pos hq] at h
        rcases hd2 : rest.drop (rest.takeWhile (fun c => !isQuoteCh c)).length
          with _ | ⟨q2, rest2⟩
        · simp only [hd2] at h
          exact absurd h (by simp)
        · simp only [hd2] at h
          by_cases hc : (isQuoteCh q2 &&
              containsKw k (lowerL (rest.takeWhile (fun c => !isQuoteCh c)))) = true
          · rw [if_pos hc] at h
            rcases Option.some.inj h with he
            rcases (Prod.mk.injEq _ _ _ _).mp he with ⟨rfl, _⟩
            have hc' : isQuoteCh q2 = true ∧
                containsKw k (lowerL (rest.takeWhile (fun c => !isQuoteCh c))) = true := by
              simpa using hc
            exact hc'.2
          · rw [if_neg hc] at h
            exact absurd h (by simp)
      · rw [if_neg hq] at h
        exact absurd h (by simp)
  · rw [if_neg h5] at h
    exact absurd h (by simp)

/-- A successful plain-text URL attempt only ever captures a group
containing the keyword (case-insensitively). -/
theorem tryUrlAt_contains (k : Kw) (l g r : List Char)
    (h : tryUrlAt k l = some (g, r)) : containsKw k (lowerL g) = true := by
  simp only [tryUrlAt] at h
  by_cases h8 : lowerL (l.take 8) = "https://".toList
  · rw [if_pos h8] at h
    rw [if_neg (by omega : ¬(8 : Nat) = 0)] at h
    by_cases hc : containsKw k (lowerL ((l.drop 8).takeWhile urlRunChar)) = true
    · rw [if_pos hc] at h
      rcases Option.some.inj h with he
      rcases (Prod.mk.injEq _ _ _ _).mp he with ⟨rfl, _⟩
      rw [lowerL, List.map_append]
      exact containsKw_append_left k _ _ hc
    · rw [if_neg hc] at h
      exact absurd h (by simp)
  · rw [if_neg h8] at h
    by_cases h7 : lowerL (l.take 7) = "http://".toList
    · rw [if_pos h7] at h
      rw [if_neg (by omega : ¬(7 : Nat) = 0)] at h
      by_cases hc : containsKw k (lowerL ((l.drop 7).takeWhile urlRunChar)) = true
      · rw [if_pos hc] at h
        rcases Option.some.inj h with he
        rcases (Prod.mk.injEq _ _ _ _).mp he with ⟨rfl, _⟩
        rw [lowerL, List.map_append]
        exact containsKw_append_left k _ _ hc
      · rw [if_neg hc] at h
        exact absurd h (by simp)
    · rw [if_neg h7] at h
      rw [if_pos rfl] at h
      exact absurd h (by simp)

/-! ## Claim theorems -/


/-- C7: the prober `test_url_accessibility` reports reachable with the
status for 2xx/3xx HEAD responses, unreachable with the status for
4xx/5xx responses, and reachable with no status when the HEAD request
raises any exception. -/
theorem c7_probe (http : List Char → Except String Nat) (url : List Char) :
    (∀ s, http url = .ok s →
      ((200 ≤ s ∧ s < 400) → test_url_accessibility http url = (true, some s)) ∧
      ((400 ≤ s ∧ s < 600) → test_url_accessibility http url = (false, some s))) ∧
    (∀ e, http url = .error e → test_url_accessibility http url = (true, none)) := by
  refine ⟨fun s hs => ⟨fun h => ?_, fun h => ?_⟩, fun e he => ?_⟩
  · simp [test_url_accessibility, hs, h]
  · have hn : ¬ (200 ≤ s ∧ s < 400) := by omega
    simp [test_url_accessibility, hs, hn]
  · simp [test_url_accessibility, he]

/-- C7 witness: a 200 HEAD response yields `(true, some 200)`. -/
theorem c7_probe_witness :
    test_url_accessibility (fun _ => .ok 200) ("https://x.example/unsub".toList) =
      (true, some 200) :=
  ((c7_probe (fun _ => .ok 200) ("https://x.example/unsub".toList)).1 200 rfl).1
    (by omega)

/-- C6 counterexample: the URL `http://[a=` ends with `=` after trimming,
yet `validate_url` does not return `false` on it — the `urlparse` call
that precedes every check raises `ValueError ("Invalid IPv6 URL")`. -/
theorem c6_counterexample :
    endsWithRstrip ("http://[a=".toList) '=' = true ∧
    validate_url ("http://[a=".toList) = .error "Invalid IPv6 URL" :=
  ⟨rfl, rfl⟩

/-- C6 (amended): whenever `urlparse` succeeds on the URL, `validate_url`
returns `false` if the scheme or the host is missing, if the string ends
with `=` or `?` after trimming trailing whitespace, or if the non-empty
query component ends with `=` after trimming. -/
theorem c6_amended (url : List Char) (r : SplitResult)
    (hp : urlparse url = .ok r)
    (hcond : r.scheme = [] ∨ r.netloc = [] ∨
      endsWithRstrip url '=' = true ∨ endsWithRstrip url '?' = true ∨
      (r.query ≠ [] ∧ endsWithRstrip r.query '=' = true)) :
    validate_url url = .ok false := by
  unfold validate_url
  by_cases hemp : url = []
  · simp [hemp]
  · rw [if_neg hemp, hp]
    show (if r.scheme = [] ∨ r.netloc = [] then Except.ok false
      else if (endsWithRstrip url '=' || endsWithRstrip url '?') = true then Except.ok false
      else if r.query ≠ [] ∧ endsWithRstrip r.query '=' = true then Except.ok false
      else Except.ok true) = Except.ok false
    by_cases h1 : r.scheme = [] ∨ r.netloc = []
    · simp [h1]
    · rw [if_neg h1]
      by_cases h2 : (endsWithRstrip url '=' || endsWithRstrip url '?') = true
      · simp [h2]
      · rw [if_neg h2]
        by_cases h3 : r.query ≠ [] ∧ endsWithRstrip r.query '=' = true
        · simp [h3]
        · exfalso
          simp only [Bool.or_eq_true, not_or] at h2
          rcases hcond with h | h | h | h | h
          · exact h1 (Or.inl h)
          · exact h1 (Or.inr h)
          · exact h2.1 h
          · exact h2.2 h
          · exact h3 h

/-- C6 witness: `https://x.example/u?id=` has a query ending in `=` and
`urlparse` succeeds on it, so `validate_url` returns `false`. -/
theorem c6_amended_witness :
    validate_url ("https://x.example/u?id=".toList) = .ok false :=
  c6_amended ("https://x.example/u?id=".toList)
    ⟨"https".toList, "x.example".toList, "/u".toList, "id=".toList, []⟩
    rfl (Or.inr (Or.inr (Or.inr (Or.inr ⟨by decide, rfl⟩))))

/-- C9: the body scanner can raise to its caller.  On the body text
`href="http://[unsub"` the markup-pattern fallback matches the candidate
`http://[unsub`, whose netloc has a `[` without `]`, and the unguarded
`urlparse` call raises `ValueError ("Invalid IPv6 URL")` out of
`extract_unsubscribe_from_body` — contradicting the never-raises design
of the malformed-input error taxonomy. -/
theorem c9_raise :
    extract_unsubscribe_from_body trivHtml
      (("href=".toList ++ ['"'] ++ "http://[unsub".toList ++ ['"'])) ("m9".toList) none =
      .error "Invalid IPv6 URL" :=
  rfl

/-- C4: when the sender's recorded `last_unsubscribed_at` is at or after
the message's received time, the run is `skipped` and no collaborator
event is emitted (no mailto, POST, probe, or browser invocation). -/
theorem c4_debounce_skip (collab : Collab) (cfg : Config) (st : Store)
    (link : Option UnsubscribeLink) (msg : MessageData)
    (sender : List Char) (emailDate ts : Int)
    (hlook : lookupSender st sender = some ts) (hts : emailDate ≤ ts) :
    processMessage collab cfg st link msg sender emailDate = (.skipped, []) := by
  have h1 : should_unsubscribe_from_sender st sender emailDate = false := by
    unfold should_unsubscribe_from_sender
    rw [hlook]
    simp only [decide_eq_false_iff_not, not_lt]
    exact hts
  have h2 : (get_last_unsubscribed_date st sender).isSome = true := by
    unfold get_last_unsubscribed_date
    rw [hlook]
    rfl
  unfold processMessage
  rw [h1, h2]
  rfl

/-- C4 witness: a sender last unsubscribed at time 10 receiving a message
dated 5 is skipped with no events. -/
theorem c4_debounce_skip_witness :
    processMessage collabTriv cfgYes ⟨[("alice@lists.example".toList, 10)]⟩
      (some linkC1) msgC1 ("alice@lists.example".toList) 5 = (.skipped, []) :=
  c4_debounce_skip collabTriv cfgYes ⟨[("alice@lists.example".toList, 10)]⟩
    (some linkC1) msgC1 ("alice@lists.example".toList) 5 10 rfl (by omega)

/-- C3: in the UI-automation loop over the candidate URLs (in resolved
order, no duplicates), the first URL is always passed to the browser
regardless of its probe result, and any later URL whose probe comes back
as a definitive 404 is skipped — the browser is never invoked on it. -/
theorem c3_probe_skip (collab : Collab) (urls : List (List Char))
    (hnd : urls.Nodup) :
    (∀ u rest, urls = u :: rest →
      Event.browser u ∈ (tryUrls collab urls).2.2) ∧
    (∀ j (hj : j < urls.length), 0 < j →
      collab.headResp (urls.get ⟨j, hj⟩) = .ok 404 →
      Event.browser (urls.get ⟨j, hj⟩) ∉ (tryUrls collab urls).2.2) := by
  constructor
  · intro u rest hurls
    subst hurls
    exact tryUrls_first_browsed collab u rest
  · intro j hj hpos h404
    cases urls with
    | nil => simp at hj
    | cons u rest =>
      obtain ⟨k, rfl⟩ : ∃ k, j = k + 1 := ⟨j - 1, by omega⟩
      have hk : k < rest.length := by
        simp at hj
        omega
      have hget : (u :: rest).get ⟨k + 1, hj⟩ = rest.get ⟨k, hk⟩ := rfl
      rw [hget] at h404 ⊢
      set w := rest.get ⟨k, hk⟩ with hw
      have hwrest : w ∈ rest := List.get_mem rest k hk
      have hnd' := List.nodup_cons.mp hnd
      have hwu : w ≠ u := fun he => hnd'.1 (he ▸ hwrest)
      have hsk : skip404 collab w = true := skip404_of_404 collab w h404
      unfold tryUrls
      simp only [tryUrlsGo, if_neg (show ¬(1 : Nat) < 1 by omega)]
      by_cases hb : collab.browser u = true
      · simp only [if_pos hb]
        intro hmem
        simp only [List.mem_cons, List.not_mem_nil, or_false] at hmem
        exact hwu (Event.browser.inj hmem)
      · simp only [if_neg hb]
        intro hmem
        simp only [List.mem_cons] at hmem
        rcases hmem with h | h
        · exact hwu (Event.browser.inj h)
        · exact tryUrlsGo_no_browse collab rest 2 (by omega) w hwrest hsk h

/-- C3 witness: with the second of two candidate URLs probing as 404, the
browser runs on the first URL and never on the second. -/
theorem c3_probe_skip_witness :
    Event.browser ("https://a.example/unsub".toList) ∈
      (tryUrls
        { collabTriv with
          headResp := fun u =>
            if u = "https://b.example/unsub2".toList then .ok 404 else .ok 200 }
        ["https://a.example/unsub".toList, "https://b.example/unsub2".toList]).2.2 ∧
    Event.browser ("https://b.example/unsub2".toList) ∉
      (tryUrls
        { collabTriv with
          headResp := fun u =>
            if u = "https://b.example/unsub2".toList then .ok 404 else .ok 200 }
        ["https://a.example/unsub".toList, "https://b.example/unsub2".toList]).2.2 :=
  ⟨(c3_probe_skip
      { collabTriv with
        headResp := fun u =>
          if u = "https://b.example/unsub2".toList then .ok 404 else .ok 200 }
      ["https://a.example/unsub".toList, "https://b.example/unsub2".toList]
      (by decide)).1 _ _ rfl,
   (c3_probe_skip
      { collabTriv with
        headResp := fun u =>
          if u = "https://b.example/unsub2".toList then .ok 404 else .ok 200 }
      ["https://a.example/unsub".toList, "https://b.example/unsub2".toList]
      (by decide)).2 1 (by decide) (by decide) rfl⟩

/-- C1 counterexample: with a header URL carrying the one-click header
and the POST collaborator answering 200, the run does not end as
`success` — the UI-automation collaborator is still invoked (and here
fails), so the run ends `failed` with a browser event in the trace. -/
theorem c1_counterexample :
    hasOneClick msgC1.headers = true ∧
    collabTriv.postResp urlC1 = .ok 200 ∧
    processMessage collabTriv cfgYes emptyStore (some linkC1) msgC1
        ("alice@lists.example".toList) 0 =
      (.failed ("Unsubscribe attempt failed".toList),
       [Event.oneClickPost urlC1, Event.browser urlC1]) :=
  ⟨rfl, rfl, rfl⟩

/-- C1 (amended): with a one-click header URL the RFC 8058 POST is
attempted before any UI-automation invocation, but a 2xx POST response
does not end the run: the POST's result has no effect at all on the
outcome or trace (the browser loop still runs and determines success). -/
theorem c1_amended (collab : Collab) (cfg : Config) (st : Store)
    (link : UnsubscribeLink) (msg : MessageData) (sender : List Char) (t : Int)
    (url : List Char) (hurl : link.link_url = some url)
    (h1c : hasOneClick msg.headers = true)
    (hdeb : should_unsubscribe_from_sender st sender t = true) :
    (∃ l1 l2, (processMessage collab cfg st (some link) msg sender t).2 =
        l1 ++ Event.oneClickPost url :: l2 ∧ ∀ v, Event.browser v ∉ l1) ∧
    (∀ p, processMessage { collab with postResp := p } cfg st (some link)
        msg sender t =
      processMessage collab cfg st (some link) msg sender t) := by
  constructor
  · rw [processMessage_events collab cfg st link msg sender t hdeb]
    exact attempt_events_shape collab cfg link msg url hurl h1c
  · intro p
    exact processMessage_postResp collab p cfg st (some link) msg sender t

/-- C1 witness: the amended claim at the concrete one-click message. -/
theorem c1_amended_witness :
    (∃ l1 l2, (processMessage collabTriv cfgYes emptyStore (some linkC1) msgC1
        ("alice@lists.example".toList) 0).2 =
        l1 ++ Event.oneClickPost urlC1 :: l2 ∧ ∀ v, Event.browser v ∉ l1) ∧
    (∀ p, processMessage { collabTriv with postResp := p } cfgYes emptyStore
        (some linkC1) msgC1 ("alice@lists.example".toList) 0 =
      processMessage collabTriv cfgYes emptyStore (some linkC1) msgC1
        ("alice@lists.example".toList) 0) :=
  c1_amended collabTriv cfgYes emptyStore linkC1 msgC1
    ("alice@lists.example".toList) 0 urlC1 rfl rfl rfl

/-- C2 counterexample: a `List-Unsubscribe` header declaring two distinct
URLs yields a record carrying only the first; the candidate set built for
the orchestrator contains only that first URL — the second distinct
header value is discarded, not retained for fallback. -/
theorem c2_counterexample :
    extract_list_unsubscribe_header (some hvC2) ("m2".toList) =
      some ⟨"m2".toList, some urlA, none, some hvC2,
            "header".toList, "pending".toList, none⟩ ∧
    collectUrlsToTry collabTriv urlA [] none = .ok [urlA] ∧
    urlB ∉ [urlA] :=
  ⟨rfl, rfl, by decide⟩

/-- C2 (amended): the candidate set deduplicates by normalized value,
places the (validating) header URL first, retains every body-derived URL,
and contains nothing else — but the header contributes only its first
URL; further distinct header URLs are not in the set. -/
theorem c2_amended (collab : Collab) (headerUrl bt : List Char)
    (hc : Option (List Char)) (bodyUrls us : List (List Char))
    (hbody : extract_all_unsubscribe_urls_from_body collab.parseHtml bt hc =
      .ok bodyUrls)
    (hcol : collectUrlsToTry collab headerUrl bt hc = .ok us) :
    us.Nodup ∧ (∀ u ∈ bodyUrls, u ∈ us) ∧
    (validate_url headerUrl = .ok true →
      us = headerUrl :: bodyUrls.filter (fun u => !(u == headerUrl))) ∧
    (validate_url headerUrl = .ok false → us = bodyUrls) := by
  have hbnodup : bodyUrls.Nodup :=
    extract_all_nodup collab.parseHtml bt hc bodyUrls hbody
  simp only [collectUrlsToTry] at hcol
  rcases hv : validate_url headerUrl with e | v
  · simp only [hv] at hcol
    exact absurd hcol (by simp)
  · simp only [hv] at hcol
    simp only [hbody, Except.ok.injEq] at hcol
    subst hcol
    cases v with
    | true =>
      refine ⟨appendNew_nodup bodyUrls _ (by simp), ?_, ?_, ?_⟩
      · intro u hu
        exact appendNew_sub_arg bodyUrls _ u hu
      · intro _
        rw [if_pos rfl, appendNew_eq bodyUrls [headerUrl] hbnodup,
          List.singleton_append]
        congr 1
        refine List.filter_congr ?_
        intro x _
        simp [List.contains_cons, beq_eq_decide]
      · intro hval
        exact absurd (Except.ok.inj hval) (by simp)
    | false =>
      refine ⟨appendNew_nodup bodyUrls _ (by simp), ?_, ?_, ?_⟩
      · intro u hu
        exact appendNew_sub_arg bodyUrls _ u hu
      · intro hval
        exact absurd (Except.ok.inj hval) (by simp)
      · intro _
        rw [if_neg (by simp), appendNew_eq bodyUrls [] hbnodup]
        simp

/-- C2 witness: the amended claim for a valid header URL and a body
containing one further unsubscribe URL. -/
theorem c2_amended_witness :
    ([urlA, "https://t.example/unsub2".toList] : List (List Char)).Nodup ∧
    (∀ u ∈ ["https://t.example/unsub2".toList],
      u ∈ [urlA, "https://t.example/unsub2".toList]) ∧
    (validate_url urlA = .ok true →
      [urlA, "https://t.example/unsub2".toList] =
        urlA :: ["https://t.example/unsub2".toList].filter (fun u => !(u == urlA))) ∧
    (validate_url urlA = .ok false →
      [urlA, "https://t.example/unsub2".toList] =
        ["https://t.example/unsub2".toList]) :=
  c2_amended collabTriv urlA ("visit https://t.example/unsub2 now".toList) none
    ["https://t.example/unsub2".toList] [urlA, "https://t.example/unsub2".toList]
    rfl rfl

/-- C5 counterexample: the markup-pattern fallback does not use the full
keyword set of the markup-aware strategy.  On markup whose href mentions
only `remove` (or only `preferences`) the fallback — and the whole
single-best body extraction — produces nothing, while the markup-aware
strategy accepts the very same link. -/
theorem c5_counterexample :
    bodyMethod2 ("href=\"https://x.example/remove?id=1\"".toList) = .ok [] ∧
    extract_unsubscribe_from_body trivHtml
      ("href=\"https://x.example/remove?id=1\"".toList) ("m5".toList) none = .ok none ∧
    extract_unsubscribe_from_body trivHtml
      ("href=\"https://x.example/preferences\"".toList) ("m5".toList) none = .ok none ∧
    extract_all_unsubscribe_links_from_html phRemove ("<html>".toList) =
      ["https://x.example/remove?id=1".toList] :=
  ⟨rfl, rfl, rfl, rfl⟩

/-- C5 (amended): every URL accepted by the markup-pattern fallback is
the cleaning of a raw regex match that contains `unsub` (hence also any
`unsubscribe`) or matches `opt.?out` case-insensitively — `remove` and
`preferences` are not part of the fallback's pattern set. -/
theorem c5_amended (bt : List Char) (us : List (List Char))
    (h : bodyMethod2 bt = .ok us) :
    ∀ u ∈ us, ∃ m, m ∈ hrefMatchesAll bt ∧ u = cleanUrl m ∧
      (containsKw Kw.unsub (lowerL m) = true ∨
       containsKw Kw.unsubscribe (lowerL m) = true ∨
       containsKw Kw.optout (lowerL m) = true) := by
  intro u hu
  have h' : addMatches (hrefMatchesAll bt) [] = .ok us := h
  rcases addMatches_prov (hrefMatchesAll bt) [] us h' u hu with h0 | ⟨m, hm, he⟩
  · exact absurd h0 (List.not_mem_nil u)
  · refine ⟨m, hm, he, ?_⟩
    rcases List.mem_append.mp hm with hm' | hm'
    · rcases List.mem_append.mp hm' with hm'' | hm''
      · rcases scanWith_emitted (tryHrefAt Kw.unsub) bt.length bt m hm''
          with ⟨l', r, ha⟩
        exact Or.inl (tryHrefAt_contains _ _ _ _ ha)
      · rcases scanWith_emitted (tryHrefAt Kw.unsubscribe) bt.length bt m hm''
          with ⟨l', r, ha⟩
        exact Or.inr (Or.inl (tryHrefAt_contains _ _ _ _ ha))
    · rcases scanWith_emitted (tryHrefAt Kw.optout) bt.length bt m hm'
        with ⟨l', r, ha⟩
      exact Or.inr (Or.inr (tryHrefAt_contains _ _ _ _ ha))

/-- C5 witness: the amended claim at a body whose fallback accepts one
URL. -/
theorem c5_amended_witness :
    ∃ m, m ∈ hrefMatchesAll ("href=\"https://x.example/unsub\"".toList) ∧
      "https://x.example/unsub".toList = cleanUrl m ∧
      (containsKw Kw.unsub (lowerL m) = true ∨
       containsKw Kw.unsubscribe (lowerL m) = true ∨
       containsKw Kw.optout (lowerL m) = true) :=
  c5_amended ("href=\"https://x.example/unsub\"".toList)
    ["https://x.example/unsub".toList] rfl
    ("https://x.example/unsub".toList) (List.mem_singleton.mpr rfl)

/-- C8: in the single-best body extraction each strategy runs only when
every previous one produced zero results (a non-empty markup-aware result
makes the body text irrelevant and supplies the record; an empty one
hands over to the href patterns, and only their emptiness invokes the
plain-text patterns), while the extract-all path unconditionally retains
every markup-aware URL and every cleaned, validating regex match. -/
theorem c8_strategies :
    (∀ (ph : HtmlCap) (hc : Option (List Char)) (bt bt' emailId : List Char),
      bodyMethod1 ph hc ≠ [] →
      extract_unsubscribe_from_body ph bt emailId hc =
        extract_unsubscribe_from_body ph bt' emailId hc) ∧
    (∀ (ph : HtmlCap) (hc : Option (List Char)) (bt emailId u : List Char)
        (l : List (List Char)),
      bodyMethod1 ph hc = [] → bodyMethod2 bt = .ok (u :: l) →
      extract_unsubscribe_from_body ph bt emailId hc =
        .ok (some (mkBodyLink emailId u))) ∧
    (∀ (ph : HtmlCap) (hc : Option (List Char)) (bt emailId : List Char),
      bodyMethod1 ph hc = [] → bodyMethod2 bt = .ok [] →
      extract_unsubscribe_from_body ph bt emailId hc =
        (match bodyMethod3 bt with
         | .error e => .error e
         | .ok [] => .ok none
         | .ok (u :: _) => .ok (some (mkBodyLink emailId u)))) ∧
    (∀ (ph : HtmlCap) (hc : Option (List Char)) (bt : List Char)
        (us : List (List Char)),
      extract_all_unsubscribe_urls_from_body ph bt hc = .ok us →
      (∀ u ∈ bodyMethod1 ph hc, u ∈ us) ∧
      (∀ m ∈ hrefMatchesAll bt ++ textMatchesAll bt, ∀ p,
        urlparse (cleanUrl m) = .ok p →
        (p.scheme = "http".toList ∨ p.scheme = "https".toList) →
        validate_url (cleanUrl m) = .ok true → cleanUrl m ∈ us)) := by
  refine ⟨?_, ?_, ?_, ?_⟩
  · intro ph hc bt bt' emailId h
    simp only [extract_unsubscribe_from_body, if_neg h]
  · intro ph hc bt emailId u l h1 h2
    simp [extract_unsubscribe_from_body, h1, h2]
  · intro ph hc bt emailId h1 h2
    rcases hb3 : bodyMethod3 bt with e | l3
    · simp [extract_unsubscribe_from_body, h1, h2, hb3]
    · rcases l3 with _ | ⟨u, l'⟩
      · simp [extract_unsubscribe_from_body, h1, h2, hb3]
      · simp [extract_unsubscribe_from_body, h1, h2, hb3]
  · intro ph hc bt us h
    have h' : addMatches (hrefMatchesAll bt ++ textMatchesAll bt)
        (bodyMethod1 ph hc) = .ok us := h
    constructor
    · intro u hu
      exact addMatches_sub _ _ us h' u hu
    · intro m hm p hp hsch hval
      exact addMatches_good _ _ us h' m hm p hp hsch hval

/-- C8 witness: with no markup, the href fallback's single result becomes
the record of the single-best path. -/
theorem c8_strategies_witness :
    extract_unsubscribe_from_body trivHtml
      ("href=\"https://x.example/unsub\"".toList) ("m8".toList) none =
      .ok (some (mkBodyLink ("m8".toList) ("https://x.example/unsub".toList))) :=
  c8_strategies.2.1 trivHtml none ("href=\"https://x.example/unsub\"".toList)
    ("m8".toList) ("https://x.example/unsub".toList) [] rfl rfl

/-- C10 counterexample: trailing punctuation is stripped before spaces
are removed, so a raw match ending in `) ` keeps its `)` — the returned
candidate set contains a URL ending in one of the punctuation
characters. -/
theorem c10_counterexample :
    extract_all_unsubscribe_urls_from_body trivHtml
      ("href=\"https://a.example/x(unsub) \"".toList) none =
      .ok ["https://a.example/x(unsub)".toList,
           "https://a.example/x(unsub".toList] ∧
    ("https://a.example/x(unsub)".toList).getLast? = some ')' ∧
    isTrailPunct ')' = true :=
  ⟨rfl, rfl, rfl⟩

/-- C10 (amended): every regex match is cleaned by stripping trailing
punctuation and then removing all spaces before validation, so no URL
returned by the extract-all body scan contains a space; a returned URL
can however still end in one of the punctuation characters when the raw
match had spaces after them. -/
theorem c10_amended (ph : HtmlCap) (bt : List Char) (hc : Option (List Char))
    (us : List (List Char))
    (h : extract_all_unsubscribe_urls_from_body ph bt hc = .ok us) :
    ∀ u ∈ us, ' ' ∉ u := by
  intro u hu
  have h' : addMatches (hrefMatchesAll bt ++ textMatchesAll bt)
      (bodyMethod1 ph hc) = .ok us := h
  rcases addMatches_prov _ _ us h' u hu with h0 | ⟨m, _, rfl⟩
  · rcases hc with _ | hcv
    · simp [bodyMethod1] at h0
    · simp only [bodyMethod1] at h0
      unfold extract_all_unsubscribe_links_from_html at h0
      rcases hph : ph (decode_quoted_printable hcv) with _ | links
      · simp only [hph] at h0
        exact absurd h0 (List.not_mem_nil u)
      · simp only [hph] at h0
        rcases htmlLoop_prov links [] u h0 with h1 | ⟨href, rfl⟩
        · exact absurd h1 (List.not_mem_nil u)
        · exact despace_not_space _
  · exact despace_not_space _

/-- C10 witness: the amended claim at the concrete punctuation-keeping
input. -/
theorem c10_amended_witness :
    ' ' ∉ ("https://a.example/x(unsub)".toList) :=
  c10_amended trivHtml ("href=\"https://a.example/x(unsub) \"".toList) none
    ["https://a.example/x(unsub)".toList, "https://a.example/x(unsub".toList]
    rfl ("https://a.example/x(unsub)".toList) (List.mem_cons_self _ _)

end GmailUnsub
